import Mathlib

/-!
Shallow embedding of the torchquad Monte Carlo integration pipeline
(src/torchquad/integration/monte_carlo.py and
src/torchquad/integration/base_integrator.py).

Numeric tensors are modelled over ℚ (exact arithmetic); a backend tensor
table carries a backend tag (a string) so that backend propagation such as
`anp.stack(..., like=integration_domain)` is visible in the model.
Fallible code returns `Except String`.  Ambient nondeterminism (random
draws without a seed) is modelled by an explicit `entropy : ℕ → ℚ`
parameter; a seeded random generator is a deterministic stream of the
seed, so results with a fixed seed are independent of the entropy.

The helpers `RNG`, `_setup_integration_domain` (from
torchquad/integration/utils.py) and `evaluate_integrand` (from the
version of base_integrator.py that monte_carlo.py calls into) are not
part of the given source tree; they are modelled from the spec and marked
as such in their doc comments.
-/

namespace Torchquad

/-- Modelled from the spec: `RandomGenerator` is "either freshly constructed
from a seed (deterministic, owned by the call) or supplied by the caller".
A deterministic stream of rationals in [0, 1) derived from the seed.
The concrete mixing constants are irrelevant to every property proved
below; only determinism in the seed matters. -/
def seededStream (s n : ℕ) : ℚ := (((37 * (s + 1) + 61 * n) % 97 : ℕ) : ℚ) / 97

/-- Modelled from the spec: a random generator holds a stream of uniform
values and a position in that stream ("any statefulness lives entirely in
the generator object"). -/
structure RNG where
  stream : ℕ → ℚ
  pos : ℕ

/-- Modelled from the spec: constructing an RNG from an optional seed
(torchquad/integration/utils.py `RNG`, absent from src/): with a seed the
stream is a deterministic function of the seed; with no seed the
generator is "created internally with no fixed seed (non-reproducible)",
modelled by the ambient entropy. -/
def RNG.fromSeed (seed : Option ℕ) (entropy : ℕ → ℚ) : RNG :=
  match seed with
  | some s => ⟨seededStream s, 0⟩
  | none => ⟨entropy, 0⟩

/-- Modelled from the spec: drawing `n` uniform values advances the
generator's draw state past the values produced. -/
def RNG.uniform (r : RNG) (n : ℕ) : List ℚ × RNG :=
  ((List.range n).map fun i => r.stream (r.pos + i), ⟨r.stream, r.pos + n⟩)

/-- A Python number argument: either an `int` or a `float`.  Needed because
`_check_inputs` tests `type(N) is not int`, so `N=1.5` must be
distinguishable from an integer. -/
inductive PyNum where
  | int (n : ℤ)
  | float (q : ℚ)
deriving DecidableEq

/-- The Python comparison `N < 1` (valid on both ints and floats). -/
def PyNum.ltOne : PyNum → Bool
  | .int n => n < 1
  | .float q => q < 1

/-- The Python test `type(N) is int`. -/
def PyNum.isInt : PyNum → Bool
  | .int _ => true
  | .float _ => false

/-- The numeric value of `N` as a sample count (meaningful once validation
has ensured `N` is a positive int). -/
def PyNum.toNat : PyNum → ℕ
  | .int n => n.toNat
  | .float q => q.num.toNat

/-- A canonical integration-domain table: a backend tag plus the
two-column (lower, upper) rows. -/
structure DomTable where
  backend : String
  bounds : List (ℚ × ℚ)

/-- A sample-point table: a backend tag plus N rows of dim coordinates. -/
structure PtsTable where
  backend : String
  rows : List (List ℚ)

/-- The mutable per-instance state of a `BaseIntegrator`
(base_integrator.py line 20): the number of function evaluations. -/
structure MCState where
  nr_of_fevals : ℕ
deriving DecidableEq

/-- `BaseIntegrator.__init__` (base_integrator.py lines 25-27):
the evaluation counter starts at 0. -/
def MCState.init : MCState := ⟨0⟩

/-- The per-bound loop of `BaseIntegrator._check_inputs`
(base_integrator.py lines 70-84): each bound pair must have length 2 and
satisfy `bounds[0] <= bounds[1]`. -/
def check_bounds : List (List ℚ) → Except String Unit
  | [] => .ok ()
  | b :: rest =>
    if b.length ≠ 2 then .error "does not specify a valid integration bound"
    else if b.getD 0 0 > b.getD 1 0 then .error "does not specify a valid integration bound"
    else check_bounds rest

/-- `BaseIntegrator._check_inputs` (base_integrator.py lines 43-84) with
all three arguments supplied (as `MonteCarlo.integrate` does; the domain
may still be `None`): `dim < 1` errors; a supplied domain of the wrong
length errors; `N < 1 or type(N) is not int` errors; then each bound pair
is checked. -/
def check_inputs (dim : ℤ) (N : PyNum) (integration_domain : Option (List (List ℚ))) :
    Except String Unit :=
  if dim < 1 then .error "Dimension needs to be 1 or larger."
  else
    match integration_domain with
    | some d =>
      if dim ≠ (d.length : ℤ) then
        .error "Dimension of integration_domain needs to be match passed dim."
      else if N.ltOne || !N.isInt then .error "N has to be a positive integer."
      else check_bounds d
    | none =>
      if N.ltOne || !N.isInt then .error "N has to be a positive integer."
      else .ok ()

/-- Modelled from the spec: `_setup_integration_domain`
(torchquad/integration/utils.py, absent from src/): produces the canonical
two-column table; "Default when no domain given: symmetric box [-1, 1] in
each of dim dimensions"; the backend is "inferred from the supplied domain
object when possible; otherwise taken from the hint" — embedded domains
are plain lists, so the hint is used. -/
def setup_integration_domain (dim : ℤ) (integration_domain : Option (List (List ℚ)))
    (backend : String) : DomTable :=
  match integration_domain with
  | some d => ⟨backend, d.map fun b => (b.getD 0 0, b.getD 1 0)⟩
  | none => ⟨backend, List.replicate dim.toNat (-1, 1)⟩

/-- `anp.stack(sample_points, axis=1, like=integration_domain)`
(monte_carlo.py line 186) restricted to a list of equal-length columns:
row `i` collects entry `i` of every column; the number of rows is the
length of the first column. -/
def stack_axis1 (cols : List (List ℚ)) : List (List ℚ) :=
  (List.range cols.headI.length).map fun i => cols.map fun col => col.getD i 0

/-- The per-dimension sampling loop of `MonteCarlo.calculate_sample_points`
(monte_carlo.py lines 179-185): for each (lower, upper) row in ascending
dimension order, draw N uniforms, scale by `upper - lower`, shift by
`lower`, threading the generator state through the loop. -/
def drawCols : RNG → List (ℚ × ℚ) → ℕ → List (List ℚ)
  | _, [], _ => []
  | r, (lo, up) :: rest, N =>
    let pair := r.uniform N
    (pair.1.map fun x => x * (up - lo) + lo) :: drawCols pair.2 rest N

/-- `MonteCarlo.calculate_sample_points` (monte_carlo.py lines 160-186):
if no rng is given one is constructed from the seed; giving both a seed
and an rng is an error; then the per-dimension draws are stacked along
axis 1, in the domain's backend. -/
def calculate_sample_points (N : ℕ) (integration_domain : DomTable) (seed : Option ℕ)
    (rng : Option RNG) (entropy : ℕ → ℚ) : Except String PtsTable :=
  match rng with
  | none =>
    .ok ⟨integration_domain.backend,
      stack_axis1 (drawCols (RNG.fromSeed seed entropy) integration_domain.bounds N)⟩
  | some r =>
    if seed.isSome then .error "seed and rng cannot both be passed"
    else .ok ⟨integration_domain.backend, stack_axis1 (drawCols r integration_domain.bounds N)⟩

/-- Modelled from the spec: `evaluate_integrand` (the IntegrandEvaluator,
whose definition is absent from src/): one batched call of the integrand
on all sample points, returning the function values together with "an
incremented evaluation count (old count + N)"; the integrand's return
shape is not validated here. -/
def evaluate_integrand (fn : List (List ℚ) → List ℚ) (points : List (List ℚ))
    (count : ℕ) : List ℚ × ℕ :=
  (fn points, count + points.length)

/-- `MonteCarlo.calculate_result` (monte_carlo.py lines 188-214):
`scales = domain[:, 1] - domain[:, 0]`, `volume = prod(scales)`,
`N = function_values.shape[0]`, `integral = volume * sum(values) / N`.
The numpy-only dtype cast back (lines 206-210) is the identity in exact
arithmetic and is not modelled. -/
def calculate_result (function_values : List ℚ) (integration_domain : DomTable) : ℚ :=
  let scales := integration_domain.bounds.map fun b => b.2 - b.1
  let volume := scales.prod
  let N := function_values.length
  volume * function_values.sum / N

/-- The volume of a domain exactly as the spec words it: "product over
dimensions of (upper - lower)".  Kept separate from `calculate_result`
so the reduction formula can be compared against the spec's wording. -/
def specVolume (D : DomTable) : ℚ :=
  (D.bounds.map fun b => b.2 - b.1).prod

/-- `MonteCarlo.integrate` (monte_carlo.py lines 15-53): validate, set up
the domain, sample, evaluate the integrand (assigning the returned count
to the instance counter, line 52), and reduce. -/
def integrate (fn : List (List ℚ) → List ℚ) (dim : ℤ) (N : PyNum)
    (integration_domain : Option (List (List ℚ))) (seed : Option ℕ) (rng : Option RNG)
    (backend : String) (entropy : ℕ → ℚ) (st : MCState) : Except String (ℚ × MCState) :=
  match check_inputs dim N integration_domain with
  | .error e => .error e
  | .ok _ =>
    let D := setup_integration_domain dim integration_domain backend
    match calculate_sample_points N.toNat D seed rng entropy with
    | .error e => .error e
    | .ok pts =>
      let ev := evaluate_integrand fn pts.rows st.nr_of_fevals
      .ok (calculate_result ev.1 D, ⟨ev.2⟩)

/-- The arguments fixed by `MonteCarlo.jit_integrate` when it builds a
compiled callable: N, seed, rng and the canonical domain (all captured by
closure in monte_carlo.py lines 105-156). -/
structure JitConfig where
  N : ℕ
  seed : Option ℕ
  rng : Option RNG
  dom : DomTable

/-- The torch compiled artifact built by `do_compile` (monte_carlo.py
lines 116-145): a traced sample stage (a function of the per-call domain)
and a traced reduce stage.  Tracing is modelled as preserving the traced
function's behaviour. -/
structure Artifact where
  step1 : DomTable → (ℕ → ℚ) → Except String PtsTable
  step3 : List ℚ → DomTable → ℚ

/-- `do_compile` (monte_carlo.py lines 116-145): tracing step1 executes it
once on the closure's domain; the example integrand is evaluated on an
example draw; tracing step3 executes it once; the artifact holds the two
traced stages.  Each executed stage can propagate its error. -/
def do_compile (cfg : JitConfig) (example_integrand : List (List ℚ) → List ℚ)
    (entropy : ℕ → ℚ) : Except String Artifact :=
  match calculate_sample_points cfg.N cfg.dom cfg.seed cfg.rng entropy with
  | .error e => .error e
  | .ok pts =>
    let ev := evaluate_integrand example_integrand pts.rows 0
    let _example_result := calculate_result ev.1 cfg.dom
    let step1 := fun (dom2 : DomTable) (ent2 : ℕ → ℚ) =>
      calculate_sample_points cfg.N dom2 cfg.seed cfg.rng ent2
    let step3 := fun (fvs : List ℚ) (dom2 : DomTable) => calculate_result fvs dom2
    .ok ⟨step1, step3⟩

/-- One invocation of the torch `compiled_integrate` closure
(monte_carlo.py lines 140-143): run the traced sample stage on the
per-call domain, evaluate the integrand discarding the returned count
(`function_values, _ = ...`), and run the traced reduce stage.  The
instance state is threaded to make the discarded counter visible. -/
def runArtifact (a : Artifact) (fn : List (List ℚ) → List ℚ) (dom : DomTable)
    (entropy : ℕ → ℚ) (st : MCState) : Except String ℚ × MCState :=
  match a.step1 dom entropy with
  | .error e => (.error e, st)
  | .ok pts =>
    let ev := evaluate_integrand fn pts.rows st.nr_of_fevals
    (.ok (a.step3 ev.1 dom), st)

/-- `lazy_compiled_integrate` (monte_carlo.py lines 149-156) together with
its one-element cache `compiled_func`: on first invocation compile from
the passed integrand and store the artifact; afterwards reuse the stored
artifact.  If compilation fails the cache stays empty. -/
def lazy_compiled_integrate (cfg : JitConfig) (cache : Option Artifact)
    (fn : List (List ℚ) → List ℚ) (dom : DomTable) (entropy : ℕ → ℚ) (st : MCState) :
    Except String ℚ × Option Artifact × MCState :=
  match cache with
  | some a =>
    let out := runArtifact a fn dom entropy st
    (out.1, some a, out.2)
  | none =>
    match do_compile cfg fn entropy with
    | .error e => (.error e, none, st)
    | .ok a =>
      let out := runArtifact a fn dom entropy st
      (out.1, some a, out.2)

/-- The tensorflow/jax `compiled_integrate` closure (monte_carlo.py lines
105-110): jitted sample stage, integrand evaluation with the returned
count discarded (`function_values, _ = ...`), jitted reduce stage. -/
def compiled_integrate_tfjax (cfg : JitConfig) (fn : List (List ℚ) → List ℚ)
    (dom : DomTable) (entropy : ℕ → ℚ) (st : MCState) : Except String ℚ × MCState :=
  match calculate_sample_points cfg.N dom cfg.seed cfg.rng entropy with
  | .error e => (.error e, st)
  | .ok pts =>
    let ev := evaluate_integrand fn pts.rows st.nr_of_fevals
    (.ok (calculate_result ev.1 dom), st)

/-- The value returned by `MonteCarlo.jit_integrate`: which backend path
was taken, the captured configuration, and (torch) the initially empty
compilation cache. -/
inductive JitCompiled where
  | torch (cfg : JitConfig) (cache : Option Artifact)
  | tfjax (cfg : JitConfig)

/-- `MonteCarlo.jit_integrate` (monte_carlo.py lines 55-158): validate,
set up the domain, then dispatch on the backend: tensorflow/jax get the
auto-recompiling path, torch gets the lazily traced path with an empty
cache (`compiled_func = [None]`), anything else is an error. -/
def jit_integrate (dim : ℤ) (N : PyNum) (integration_domain : Option (List (List ℚ)))
    (seed : Option ℕ) (rng : Option RNG) (backend : String) : Except String JitCompiled :=
  match check_inputs dim N integration_domain with
  | .error e => .error e
  | .ok _ =>
    let D := setup_integration_domain dim integration_domain backend
    let cfg : JitConfig := ⟨N.toNat, seed, rng, D⟩
    if backend = "tensorflow" ∨ backend = "jax" then .ok (.tfjax cfg)
    else if backend = "torch" then .ok (.torch cfg none)
    else .error ("Compilation not implemented for backend " ++ backend)

lemma getD_map_range {α : Type} (g : ℕ → α) (dflt : α) {n i : ℕ} (h : i < n) :
    ((List.range n).map g).getD i dflt = g i := by
  have hl : i < ((List.range n).map g).length := by simpa using h
  rw [List.getD_eq_getElem _ _ hl]
  simp [List.getElem_map, List.getElem_range]

lemma getD_map {α β : Type} (f : α → β) (l : List α) {d : ℕ} (h : d < l.length)
    (d0 : α) (dflt : β) : (l.map f).getD d dflt = f (l.getD d d0) := by
  have hl : d < (l.map f).length := by simpa using h
  rw [List.getD_eq_getElem _ _ hl, List.getD_eq_getElem _ _ h]
  simp [List.getElem_map]

lemma drawCols_length (r : RNG) (bounds : List (ℚ × ℚ)) (N : ℕ) :
    (drawCols r bounds N).length = bounds.length := by
  induction bounds generalizing r with
  | nil => rfl
  | cons b rest ih =>
    obtain ⟨lo, up⟩ := b
    simp [drawCols, ih]

lemma drawCols_headI_length (r : RNG) (bounds : List (ℚ × ℚ)) (N : ℕ) (hb : bounds ≠ []) :
    (drawCols r bounds N).headI.length = N := by
  cases bounds with
  | nil => exact absurd rfl hb
  | cons b rest =>
    obtain ⟨lo, up⟩ := b
    simp [drawCols, RNG.uniform]

lemma stack_rows_length (r : RNG) (bounds : List (ℚ × ℚ)) (N : ℕ) (hb : bounds ≠ []) :
    (stack_axis1 (drawCols r bounds N)).length = N := by
  simp [stack_axis1, drawCols_headI_length r bounds N hb]

lemma stack_getD (cols : List (List ℚ)) {i : ℕ} (h : i < cols.headI.length) :
    (stack_axis1 cols).getD i [] = cols.map fun col => col.getD i 0 :=
  getD_map_range _ _ h

lemma drawCols_getD_getD (bounds : List (ℚ × ℚ)) (f : ℕ → ℚ) (p : ℕ) {N d i : ℕ}
    (hd : d < bounds.length) (hi : i < N) :
    ((drawCols ⟨f, p⟩ bounds N).getD d []).getD i 0 =
      f (p + d * N + i) * ((bounds.getD d (0, 0)).2 - (bounds.getD d (0, 0)).1)
        + (bounds.getD d (0, 0)).1 := by
  induction bounds generalizing p d with
  | nil => simp at hd
  | cons b rest ih =>
    obtain ⟨lo, up⟩ := b
    cases d with
    | zero =>
      simp only [drawCols, RNG.uniform, List.getD_cons_zero, List.map_map]
      rw [getD_map_range _ _ hi]
      simp
    | succ d =>
      simp only [drawCols, RNG.uniform, List.getD_cons_succ]
      have hd' : d < rest.length := by simpa using hd
      rw [ih (p + N) hd']
      have harg : p + N + d * N + i = p + (d + 1) * N + i := by ring
      rw [harg]

/-- C1: for every integration domain and every non-empty list of function
values, `calculate_result` returns `volume * sum(function_values) / N`
where `volume` is the product over all dimensions of `upper - lower`
(the spec-worded `specVolume`) and `N` is the number of function values. -/
theorem c1_calculate_result_formula (fvs : List ℚ) (D : DomTable) (_h : fvs ≠ []) :
    calculate_result fvs D = specVolume D * fvs.sum / (fvs.length : ℚ) := rfl

theorem c1_calculate_result_formula_witness :
    ([(1 : ℚ), 2] ≠ ([] : List ℚ)) ∧
      calculate_result [(1 : ℚ), 2] ⟨"torch", [(0, 2)]⟩ =
        specVolume ⟨"torch", [(0, 2)]⟩ * ([(1 : ℚ), 2]).sum / (([(1 : ℚ), 2]).length : ℚ) :=
  ⟨by simp, c1_calculate_result_formula [(1 : ℚ), 2] ⟨"torch", [(0, 2)]⟩ (by simp)⟩

/-- C3: with a fixed seed the full `integrate` pipeline is a deterministic
function of its arguments: the result does not depend on the ambient
entropy, so two separate calls with identical arguments (and possibly
different ambient randomness) return identical results. -/
theorem c3_integrate_deterministic (fn : List (List ℚ) → List ℚ) (dim : ℤ) (N : PyNum)
    (dom : Option (List (List ℚ))) (s : ℕ) (rng : Option RNG) (backend : String)
    (ent1 ent2 : ℕ → ℚ) (st : MCState) :
    integrate fn dim N dom (some s) rng backend ent1 st =
      integrate fn dim N dom (some s) rng backend ent2 st := by
  cases rng <;> rfl

lemma runArtifact_state (a : Artifact) (fn : List (List ℚ) → List ℚ) (dom : DomTable)
    (ent : ℕ → ℚ) (st : MCState) : (runArtifact a fn dom ent st).2 = st := by
  unfold runArtifact
  split <;> rfl

/-- C10: every invocation of a compiled integrate callable leaves the
instance's evaluation counter unchanged: both the tensorflow/jax closure
and the torch lazily-compiled closure discard the count returned by
`evaluate_integrand`, for any cache state. -/
theorem c10_compiled_counter_unchanged (cfg : JitConfig) (fn : List (List ℚ) → List ℚ)
    (dom : DomTable) (ent : ℕ → ℚ) (st : MCState) :
    (compiled_integrate_tfjax cfg fn dom ent st).2 = st ∧
      ∀ cache, (lazy_compiled_integrate cfg cache fn dom ent st).2.2 = st := by
  constructor
  · unfold compiled_integrate_tfjax
    split <;> rfl
  · intro cache
    unfold lazy_compiled_integrate
    cases cache with
    | some a => simp [runArtifact_state]
    | none =>
      cases h : do_compile cfg fn ent with
      | error e => simp [h]
      | ok a => simp [h, runArtifact_state]

lemma check_bounds_ok_iff :
    ∀ d : List (List ℚ), check_bounds d = .ok () ↔
      ∀ b ∈ d, b.length = 2 ∧ ¬ b.getD 0 0 > b.getD 1 0
  | [] => by simp [check_bounds]
  | b :: rest => by
    simp only [check_bounds]
    split_ifs with h1 h2
    · simp only [List.mem_cons]
      constructor
      · intro h
        exact absurd h (by simp)
      · intro h
        exact absurd (h b (Or.inl rfl)).1 h1
    · simp only [List.mem_cons]
      constructor
      · intro h
        exact absurd h (by simp)
      · intro h
        exact absurd h2 (h b (Or.inl rfl)).2
    · rw [check_bounds_ok_iff rest]
      simp only [List.mem_cons]
      constructor
      · intro h c hc
        rcases hc with hc | hc
        · subst hc
          exact ⟨by omega, h2⟩
        · exact h c hc
      · intro h c hc
        exact h c (Or.inr hc)

lemma check_inputs_ok_iff (dim : ℤ) (N : PyNum) (dom : Option (List (List ℚ))) :
    check_inputs dim N dom = .ok () ↔
      1 ≤ dim ∧ N.ltOne = false ∧ N.isInt = true ∧
        ∀ d, dom = some d →
          dim = (d.length : ℤ) ∧ ∀ b ∈ d, b.length = 2 ∧ ¬ b.getD 0 0 > b.getD 1 0 := by
  cases dom with
  | none =>
    simp only [check_inputs]
    by_cases h1 : dim < 1
    · rw [if_pos h1]
      constructor
      · intro h
        exact absurd h (by simp)
      · intro h
        omega
    · rw [if_neg h1]
      by_cases h2 : (N.ltOne || !N.isInt) = true
      · rw [if_pos h2]
        constructor
        · intro h
          exact absurd h (by simp)
        · intro h
          rw [h.2.1, h.2.2.1] at h2
          simp at h2
      · rw [if_neg h2]
        have h2' : (N.ltOne || !N.isInt) = false := by simpa using h2
        rcases Bool.or_eq_false_iff.mp h2' with ⟨ha, hb⟩
        constructor
        · intro _
          exact ⟨by omega, ha, by simpa using hb, by simp⟩
        · intro _
          rfl
  | some d =>
    simp only [check_inputs]
    by_cases h1 : dim < 1
    · rw [if_pos h1]
      constructor
      · intro h
        exact absurd h (by simp)
      · intro h
        omega
    · rw [if_neg h1]
      by_cases h3 : dim ≠ (d.length : ℤ)
      · rw [if_pos h3]
        constructor
        · intro h
          exact absurd h (by simp)
        · intro h
          exact absurd (h.2.2.2 d rfl).1 h3
      · rw [if_neg h3]
        by_cases h2 : (N.ltOne || !N.isInt) = true
        · rw [if_pos h2]
          constructor
          · intro h
            exact absurd h (by simp)
          · intro h
            rw [h.2.1, h.2.2.1] at h2
            simp at h2
        · rw [if_neg h2]
          have h2' : (N.ltOne || !N.isInt) = false := by simpa using h2
          rcases Bool.or_eq_false_iff.mp h2' with ⟨ha, hb⟩
          rw [check_bounds_ok_iff d]
          constructor
          · intro h
            refine ⟨by omega, ha, by simpa using hb, ?_⟩
            intro d' hd'
            cases hd'
            exact ⟨not_not.mp h3, h⟩
          · intro h
            exact (h.2.2.2 d rfl).2

lemma integrate_of_check_error {dim : ℤ} {N : PyNum} {dom : Option (List (List ℚ))}
    {e : String} (h : check_inputs dim N dom = .error e) (fn : List (List ℚ) → List ℚ)
    (seed : Option ℕ) (rng : Option RNG) (backend : String) (ent : ℕ → ℚ) (st : MCState) :
    integrate fn dim N dom seed rng backend ent st = .error e := by
  unfold integrate
  rw [h]

/-- C6: whenever `dim < 1`, or a supplied domain's length differs from
`dim`, or `N` is not a positive integer, or some bound pair does not have
length 2 or has lower > upper, validation raises eagerly: `check_inputs`
returns an error, and `integrate` returns that same error for every
integrand, rng, entropy and starting state — so nothing is sampled, the
integrand is never evaluated, and no state is produced by the failing
call. -/
theorem c6_validation_eager (dim : ℤ) (N : PyNum) (dom : Option (List (List ℚ)))
    (h : dim < 1 ∨
      (∃ d, dom = some d ∧
        (dim ≠ (d.length : ℤ) ∨ ∃ b ∈ d, b.length ≠ 2 ∨ b.getD 0 0 > b.getD 1 0)) ∨
      N.ltOne = true ∨ N.isInt = false) :
    ∃ e, check_inputs dim N dom = .error e ∧
      ∀ fn seed rng backend ent st,
        integrate fn dim N dom seed rng backend ent st = .error e := by
  have hnok : check_inputs dim N dom ≠ .ok () := by
    intro hok
    rw [check_inputs_ok_iff] at hok
    obtain ⟨h1, h2, h3, h4⟩ := hok
    rcases h with h | ⟨d, hd, hcase⟩ | h | h
    · omega
    · obtain ⟨hlen, hbounds⟩ := h4 d hd
      rcases hcase with hcase | ⟨b, hb, hcase⟩
      · exact hcase hlen
      · obtain ⟨hb2, hble⟩ := hbounds b hb
        rcases hcase with hcase | hcase
        · exact hcase hb2
        · exact hble hcase
    · rw [h2] at h
      simp at h
    · rw [h3] at h
      simp at h
  cases hc : check_inputs dim N dom with
  | error e => exact ⟨e, rfl, fun fn seed rng backend ent st =>
      integrate_of_check_error hc fn seed rng backend ent st⟩
  | ok u =>
    cases u
    exact absurd hc hnok

theorem c6_validation_eager_witness :
    ∃ e, check_inputs 2 (.float (3 / 2)) (some [[0, 1], [0, 1]]) = .error e ∧
      ∀ fn seed rng backend ent st,
        integrate fn 2 (.float (3 / 2)) (some [[0, 1], [0, 1]]) seed rng backend ent st =
          .error e :=
  c6_validation_eager 2 (.float (3 / 2)) (some [[0, 1], [0, 1]])
    (Or.inr (Or.inr (Or.inr rfl)))

/-- C7: supplying both an explicit seed and an explicit rng fails with the
argument-conflict error on every path: in `calculate_sample_points`
itself, in a direct `integrate` call that passes validation, on the first
invocation of the torch lazily-compiled callable (compilation is
attempted, fails, and nothing is cached), and on every invocation of the
tensorflow/jax compiled callable. -/
theorem c7_seed_rng_conflict :
    (∀ N D s r ent, calculate_sample_points N D (some s) (some r) ent =
      .error "seed and rng cannot both be passed") ∧
    (∀ fn dim N dom backend s r ent st, check_inputs dim N dom = .ok () →
      integrate fn dim N dom (some s) (some r) backend ent st =
        .error "seed and rng cannot both be passed") ∧
    (∀ cfg s r fn dom ent st, cfg.seed = some s → cfg.rng = some r →
      lazy_compiled_integrate cfg none fn dom ent st =
        (.error "seed and rng cannot both be passed", none, st)) ∧
    (∀ cfg s r fn dom ent st, cfg.seed = some s → cfg.rng = some r →
      compiled_integrate_tfjax cfg fn dom ent st =
        (.error "seed and rng cannot both be passed", st)) := by
  refine ⟨fun N D s r ent => rfl, ?_, ?_, ?_⟩
  · intro fn dim N dom backend s r ent st hc
    unfold integrate
    rw [hc]
    rfl
  · intro cfg s r fn dom ent st hs hr
    unfold lazy_compiled_integrate do_compile
    rw [hs, hr]
    rfl
  · intro cfg s r fn dom ent st hs hr
    unfold compiled_integrate_tfjax
    rw [hs, hr]
    rfl

theorem c7_seed_rng_conflict_witness :
    check_inputs 1 (.int 1) none = .ok () ∧
      integrate (fun rows => rows.map fun _ => 1) 1 (.int 1) none (some 0)
          (some ⟨fun _ => 0, 0⟩) "torch" (fun _ => 0) MCState.init =
        .error "seed and rng cannot both be passed" :=
  ⟨rfl, c7_seed_rng_conflict.2.1 (fun rows => rows.map fun _ => 1) 1 (.int 1) none "torch"
    0 ⟨fun _ => 0, 0⟩ (fun _ => 0) MCState.init rfl⟩

lemma toNat_pos_of_check_ok {dim : ℤ} {N : PyNum} {dom : Option (List (List ℚ))}
    (hc : check_inputs dim N dom = .ok ()) : 1 ≤ N.toNat := by
  rw [check_inputs_ok_iff] at hc
  obtain ⟨_, hlt, hint, _⟩ := hc
  cases N with
  | int n =>
    simp only [PyNum.ltOne, decide_eq_false_iff_not, not_lt] at hlt
    simp only [PyNum.toNat]
    omega
  | float q => simp [PyNum.isInt] at hint

lemma setup_bounds_ne_nil {dim : ℤ} {N : PyNum} {dom : Option (List (List ℚ))}
    (backend : String) (hc : check_inputs dim N dom = .ok ()) :
    (setup_integration_domain dim dom backend).bounds ≠ [] := by
  rw [check_inputs_ok_iff] at hc
  obtain ⟨h1, _, _, h4⟩ := hc
  cases dom with
  | none =>
    simp only [setup_integration_domain]
    intro h
    apply congrArg List.length at h
    simp at h
    omega
  | some d =>
    obtain ⟨hlen, _⟩ := h4 d rfl
    simp only [setup_integration_domain]
    intro h
    apply congrArg List.length at h
    simp at h
    rw [h] at hlen
    simp at hlen
    omega

lemma csp_ok_of_not_both (N : ℕ) (D : DomTable) (seed : Option ℕ) (rng : Option RNG)
    (ent : ℕ → ℚ) (hsr : seed = none ∨ rng = none) :
    ∃ r0 : RNG, calculate_sample_points N D seed rng ent =
      .ok ⟨D.backend, stack_axis1 (drawCols r0 D.bounds N)⟩ := by
  cases rng with
  | none => exact ⟨RNG.fromSeed seed ent, rfl⟩
  | some r =>
    have hseed : seed = none := by
      rcases hsr with h | h
      · exact h
      · exact absurd h (by simp)
    subst hseed
    exact ⟨r, rfl⟩

lemma sum_map_const (l : List (List ℚ)) (c : ℚ) : (l.map fun _ => c).sum = l.length * c := by
  induction l with
  | nil => simp
  | cons a t ih =>
    simp [ih]
    ring

lemma integrate_of_check_ok (fn : List (List ℚ) → List ℚ) (dim : ℤ) (N : PyNum)
    (dom : Option (List (List ℚ))) (seed : Option ℕ) (rng : Option RNG) (backend : String)
    (ent : ℕ → ℚ) (st : MCState) (hc : check_inputs dim N dom = .ok ())
    (hsr : seed = none ∨ rng = none) :
    ∃ pts, calculate_sample_points N.toNat (setup_integration_domain dim dom backend)
        seed rng ent = .ok pts ∧
      pts.rows.length = N.toNat ∧
      integrate fn dim N dom seed rng backend ent st =
        .ok (calculate_result (fn pts.rows) (setup_integration_domain dim dom backend),
          ⟨st.nr_of_fevals + N.toNat⟩) := by
  obtain ⟨r0, heq⟩ :=
    csp_ok_of_not_both N.toNat (setup_integration_domain dim dom backend) seed rng ent hsr
  have hb := setup_bounds_ne_nil backend hc
  have hlen : (stack_axis1 (drawCols r0 (setup_integration_domain dim dom backend).bounds
      N.toNat)).length = N.toNat :=
    stack_rows_length _ _ _ hb
  refine ⟨_, heq, hlen, ?_⟩
  unfold integrate
  rw [hc]
  simp only [heq, evaluate_integrand]
  rw [hlen]

/-- C2: for every constant integrand, every domain and sample count that
pass validation, and every seed, `integrate` returns exactly
`c * volume(D)` — independent of N, of the seed, and of the ambient
entropy; the evaluation counter advances by N. -/
theorem c2_constant_integrand_exact (c : ℚ) (dim : ℤ) (N : PyNum)
    (dom : Option (List (List ℚ))) (seed : Option ℕ) (backend : String) (ent : ℕ → ℚ)
    (st : MCState) (hc : check_inputs dim N dom = .ok ()) :
    integrate (fun rows => rows.map fun _ => c) dim N dom seed none backend ent st =
      .ok (c * specVolume (setup_integration_domain dim dom backend),
        ⟨st.nr_of_fevals + N.toNat⟩) := by
  obtain ⟨pts, _, hlen, hint⟩ :=
    integrate_of_check_ok (fun rows => rows.map fun _ => c) dim N dom seed none backend
      ent st hc (Or.inr rfl)
  rw [hint]
  have hform : calculate_result (pts.rows.map fun _ => c)
      (setup_integration_domain dim dom backend) =
      specVolume (setup_integration_domain dim dom backend) *
        (pts.rows.map fun _ => c).sum / (((pts.rows.map fun _ => c).length : ℕ) : ℚ) := rfl
  have hN : 1 ≤ N.toNat := toNat_pos_of_check_ok hc
  have hNQ : ((N.toNat : ℕ) : ℚ) ≠ 0 := by
    exact_mod_cast Nat.one_le_iff_ne_zero.mp hN
  have hval : calculate_result (pts.rows.map fun _ => c)
      (setup_integration_domain dim dom backend) =
      c * specVolume (setup_integration_domain dim dom backend) := by
    rw [hform, sum_map_const, List.length_map, hlen]
    field_simp
    ring
  rw [hval]

theorem c2_constant_integrand_exact_witness :
    check_inputs 2 (.int 50) (some [[0, 2], [0, 3]]) = .ok () ∧
      (2 : ℚ) * specVolume (setup_integration_domain 2 (some [[0, 2], [0, 3]]) "torch") = 12 ∧
      integrate (fun rows => rows.map fun _ => (2 : ℚ)) 2 (.int 50) (some [[0, 2], [0, 3]])
          (some 0) none "torch" (fun _ => 0) MCState.init =
        .ok (2 * specVolume (setup_integration_domain 2 (some [[0, 2], [0, 3]]) "torch"),
          ⟨MCState.init.nr_of_fevals + (PyNum.int 50).toNat⟩) :=
  ⟨rfl, by norm_num [specVolume, setup_integration_domain, List.getD],
    c2_constant_integrand_exact 2 2 (.int 50) (some [[0, 2], [0, 3]]) (some 0) "torch"
      (fun _ => 0) MCState.init rfl⟩

/-- C5: the evaluation counter of a freshly constructed integrator is 0;
every successful `integrate` call increments the counter by exactly N (so
it is monotonically non-decreasing), and a single successful call from a
fresh integrator leaves the counter at exactly N. -/
theorem c5_evaluation_counter :
    MCState.init.nr_of_fevals = 0 ∧
      (∀ fn dim N dom seed rng backend ent st,
        check_inputs dim N dom = .ok () → (seed = none ∨ rng = none) →
        ∃ r, integrate fn dim N dom seed rng backend ent st =
            .ok (r, ⟨st.nr_of_fevals + N.toNat⟩) ∧
          st.nr_of_fevals ≤ st.nr_of_fevals + N.toNat) ∧
      (∀ fn dim N dom seed rng backend ent,
        check_inputs dim N dom = .ok () → (seed = none ∨ rng = none) →
        ∃ r, integrate fn dim N dom seed rng backend ent MCState.init = .ok (r, ⟨N.toNat⟩)) := by
  refine ⟨rfl, ?_, ?_⟩
  · intro fn dim N dom seed rng backend ent st hc hsr
    obtain ⟨pts, _, _, hint⟩ :=
      integrate_of_check_ok fn dim N dom seed rng backend ent st hc hsr
    exact ⟨_, hint, Nat.le_add_right _ _⟩
  · intro fn dim N dom seed rng backend ent hc hsr
    obtain ⟨pts, _, _, hint⟩ :=
      integrate_of_check_ok fn dim N dom seed rng backend ent MCState.init hc hsr
    have h2 : MCState.init.nr_of_fevals + N.toNat = N.toNat := by
      simp [MCState.init]
    rw [h2] at hint
    exact ⟨_, hint⟩

theorem c5_evaluation_counter_witness :
    ∃ r, integrate (fun rows => rows.map fun _ => (1 : ℚ)) 1 (.int 10) none none none
        "torch" (fun _ => 0) MCState.init = .ok (r, ⟨(PyNum.int 10).toNat⟩) :=
  c5_evaluation_counter.2.2 (fun rows => rows.map fun _ => (1 : ℚ)) 1 (.int 10) none none
    none "torch" (fun _ => 0) rfl (Or.inl rfl)

/-- C9: the integrand's return shape is not validated at the evaluation
stage — for every integrand `fn`, whatever the length of its output,
`evaluate_integrand` passes the output through unchanged and the pipeline
completes the evaluation step; the output's length enters the computation
only in `calculate_result`, which divides by the length of the function
values it receives (not by the number of sample points). -/
theorem c9_shape_surfaces_in_reduction (fn : List (List ℚ) → List ℚ) (dim : ℤ) (N : PyNum)
    (dom : Option (List (List ℚ))) (seed : Option ℕ) (backend : String) (ent : ℕ → ℚ)
    (st : MCState) (hc : check_inputs dim N dom = .ok ()) :
    ∃ pts, calculate_sample_points N.toNat (setup_integration_domain dim dom backend)
        seed none ent = .ok pts ∧
      (∀ count, evaluate_integrand fn pts.rows count = (fn pts.rows, count + pts.rows.length)) ∧
      integrate fn dim N dom seed none backend ent st =
        .ok (calculate_result (fn pts.rows) (setup_integration_domain dim dom backend),
          ⟨st.nr_of_fevals + N.toNat⟩) ∧
      calculate_result (fn pts.rows) (setup_integration_domain dim dom backend) =
        specVolume (setup_integration_domain dim dom backend) * (fn pts.rows).sum /
          (((fn pts.rows).length : ℕ) : ℚ) := by
  obtain ⟨pts, hcsp, _, hint⟩ :=
    integrate_of_check_ok fn dim N dom seed none backend ent st hc (Or.inr rfl)
  exact ⟨pts, hcsp, fun count => rfl, hint, rfl⟩

theorem c9_shape_surfaces_in_reduction_witness :
    ∃ pts, calculate_sample_points (PyNum.int 1).toNat
        (setup_integration_domain 1 none "torch") (some 0) none (fun _ => 0) = .ok pts ∧
      (∀ count, evaluate_integrand (fun _ => [1, 2, 3]) pts.rows count =
        ((fun _ => [(1 : ℚ), 2, 3]) pts.rows, count + pts.rows.length)) ∧
      integrate (fun _ => [1, 2, 3]) 1 (.int 1) none (some 0) none "torch" (fun _ => 0)
          MCState.init =
        .ok (calculate_result ((fun _ => [(1 : ℚ), 2, 3]) pts.rows)
            (setup_integration_domain 1 none "torch"),
          ⟨MCState.init.nr_of_fevals + (PyNum.int 1).toNat⟩) ∧
      calculate_result ((fun _ => [(1 : ℚ), 2, 3]) pts.rows)
          (setup_integration_domain 1 none "torch") =
        specVolume (setup_integration_domain 1 none "torch") *
          ((fun _ => [(1 : ℚ), 2, 3]) pts.rows).sum /
          ((((fun _ => [(1 : ℚ), 2, 3]) pts.rows).length : ℕ) : ℚ) :=
  c9_shape_surfaces_in_reduction (fun _ => [1, 2, 3]) 1 (.int 1) none (some 0) "torch"
    (fun _ => 0) MCState.init rfl

/-- C4: for a positive N, a seed and a canonical non-empty domain,
`calculate_sample_points` returns an N×dim table carrying the domain's
backend tag, in which the entry of row i and dimension d is the uniform
draw at stream position `d * N + i` — dimension d consumes the d-th
consecutive block of N draws, so the dimensions are drawn in fixed
ascending order 0..dim-1 — scaled by `upper_d - lower_d` and shifted by
`lower_d`. -/
theorem c4_sample_points_layout (N : ℕ) (D : DomTable) (s : ℕ) (ent : ℕ → ℚ)
    (hb : D.bounds ≠ []) (_hN : 1 ≤ N) :
    ∃ P, calculate_sample_points N D (some s) none ent = .ok P ∧
      P.backend = D.backend ∧ P.rows.length = N ∧
      (∀ i, i < N → (P.rows.getD i []).length = D.bounds.length) ∧
      (∀ i d, i < N → d < D.bounds.length →
        (P.rows.getD i []).getD d 0 =
          seededStream s (d * N + i) *
              ((D.bounds.getD d (0, 0)).2 - (D.bounds.getD d (0, 0)).1)
            + (D.bounds.getD d (0, 0)).1) := by
  refine ⟨_, rfl, rfl, stack_rows_length _ _ _ hb, ?_, ?_⟩
  all_goals
    have hrow : ∀ i, i < N →
        (stack_axis1 (drawCols (RNG.fromSeed (some s) ent) D.bounds N)).getD i [] =
          (drawCols (RNG.fromSeed (some s) ent) D.bounds N).map fun col => col.getD i 0 := by
      intro i hi
      exact stack_getD _ (by rw [drawCols_headI_length _ _ _ hb]; exact hi)
  · intro i hi
    rw [hrow i hi]
    simp [drawCols_length]
  · intro i d hi hd
    rw [hrow i hi]
    have hd' : d < (drawCols (RNG.fromSeed (some s) ent) D.bounds N).length := by
      rw [drawCols_length]
      exact hd
    rw [getD_map _ _ hd' []]
    have hfs : RNG.fromSeed (some s) ent = ⟨seededStream s, 0⟩ := rfl
    rw [hfs, drawCols_getD_getD D.bounds (seededStream s) 0 hd hi]
    simp

theorem c4_sample_points_layout_witness :
    (⟨"torch", [((0 : ℚ), 1)]⟩ : DomTable).bounds ≠ [] ∧ 1 ≤ 2 ∧
      ∃ P, calculate_sample_points 2 ⟨"torch", [((0 : ℚ), 1)]⟩ (some 0) none (fun _ => 0) =
          .ok P ∧
        P.backend = (⟨"torch", [((0 : ℚ), 1)]⟩ : DomTable).backend ∧ P.rows.length = 2 ∧
        (∀ i, i < 2 → (P.rows.getD i []).length =
          (⟨"torch", [((0 : ℚ), 1)]⟩ : DomTable).bounds.length) ∧
        (∀ i d, i < 2 → d < (⟨"torch", [((0 : ℚ), 1)]⟩ : DomTable).bounds.length →
          (P.rows.getD i []).getD d 0 =
            seededStream 0 (d * 2 + i) *
                (((⟨"torch", [((0 : ℚ), 1)]⟩ : DomTable).bounds.getD d (0, 0)).2 -
                  ((⟨"torch", [((0 : ℚ), 1)]⟩ : DomTable).bounds.getD d (0, 0)).1)
              + ((⟨"torch", [((0 : ℚ), 1)]⟩ : DomTable).bounds.getD d (0, 0)).1) :=
  ⟨by simp, by norm_num,
    c4_sample_points_layout 2 ⟨"torch", [((0 : ℚ), 1)]⟩ 0 (fun _ => 0) (by simp) (by norm_num)⟩

/-- C8: for the torch backend, `jit_integrate` returns with an empty
compilation cache (compilation is deferred); an invocation that finds a
cached artifact uses it and returns the cache unchanged (the artifact is
never rebuilt); and the first successful invocation builds the artifact
from the integrand it was called with and stores exactly that artifact
for all later invocations. -/
theorem c8_lazy_compile_cache :
    (∀ dim N dom seed rng res, jit_integrate dim N dom seed rng "torch" = .ok res →
      res = .torch ⟨PyNum.toNat N, seed, rng, setup_integration_domain dim dom "torch"⟩ none) ∧
    (∀ cfg a fn dom ent st,
      lazy_compiled_integrate cfg (some a) fn dom ent st =
        ((runArtifact a fn dom ent st).1, some a, (runArtifact a fn dom ent st).2)) ∧
    (∀ cfg fn dom ent st a, do_compile cfg fn ent = .ok a →
      lazy_compiled_integrate cfg none fn dom ent st =
        ((runArtifact a fn dom ent st).1, some a, (runArtifact a fn dom ent st).2)) := by
  refine ⟨?_, fun cfg a fn dom ent st => rfl, ?_⟩
  · intro dim N dom seed rng res hres
    unfold jit_integrate at hres
    cases hc : check_inputs dim N dom with
    | error e =>
      rw [hc] at hres
      exact absurd hres (by simp)
    | ok u =>
      cases u
      rw [hc] at hres
      rw [if_neg (by simp), if_pos rfl] at hres
      exact (Except.ok.injEq _ _).mp hres.symm ▸ rfl
  · intro cfg fn dom ent st a ha
    unfold lazy_compiled_integrate
    rw [ha]

theorem c8_lazy_compile_cache_witness :
    jit_integrate 1 (.int 1) none none none "torch" =
        .ok (.torch ⟨PyNum.toNat (.int 1), none, none,
          setup_integration_domain 1 none "torch"⟩ none) ∧
      (JitCompiled.torch ⟨PyNum.toNat (.int 1), none, none,
          setup_integration_domain 1 none "torch"⟩ none =
        .torch ⟨PyNum.toNat (.int 1), none, none,
          setup_integration_domain 1 none "torch"⟩ none) ∧
      ∃ a, do_compile ⟨1, none, none, ⟨"torch", [((0 : ℚ), 1)]⟩⟩
          (fun rows => rows.map fun _ => 1) (fun _ => 0) = .ok a ∧
        lazy_compiled_integrate ⟨1, none, none, ⟨"torch", [((0 : ℚ), 1)]⟩⟩ none
            (fun rows => rows.map fun _ => 1) ⟨"torch", [((0 : ℚ), 1)]⟩ (fun _ => 0)
            MCState.init =
          ((runArtifact a (fun rows => rows.map fun _ => 1) ⟨"torch", [((0 : ℚ), 1)]⟩
              (fun _ => 0) MCState.init).1, some a,
            (runArtifact a (fun rows => rows.map fun _ => 1) ⟨"torch", [((0 : ℚ), 1)]⟩
              (fun _ => 0) MCState.init).2) :=
  ⟨rfl,
    c8_lazy_compile_cache.1 1 (.int 1) none none none _ rfl,
    ⟨⟨fun dom2 ent2 => calculate_sample_points 1 dom2 none none ent2,
        fun fvs dom2 => calculate_result fvs dom2⟩, rfl,
      c8_lazy_compile_cache.2.2 ⟨1, none, none, ⟨"torch", [((0 : ℚ), 1)]⟩⟩
        (fun rows => rows.map fun _ => 1) ⟨"torch", [((0 : ℚ), 1)]⟩ (fun _ => 0) MCState.init
        ⟨fun dom2 ent2 => calculate_sample_points 1 dom2 none none ent2,
          fun fvs dom2 => calculate_result fvs dom2⟩ rfl⟩⟩

end Torchquad
